import Mathlib

/-!
# Verification of the rt-2-demo language-to-action core

Shallow embedding of the pick-and-place command grounding pipeline:

* `SemanticMatcher.decide`            (src/Pybulllet/p.py)
* `CLIPMatcher.pick_and_place_from_text`  (src/Pybulllet/Simullation.py)
* `CLIPSemanticMatcher.pick_and_place_from_text` (src/Pybulllet/p_clip.py)
* `ActionTokenizerV2`                 (src/Pybulllet/Simullation.py)
* `ActionExecutor`                    (src/Pybulllet/Simullation.py)

Texts are modelled as `List Char`.  The external embedding encoder is
modelled as an oracle `sim : List Char → List Char → ℚ` giving the cosine
similarity of two texts (p_clip's image-text similarity becomes
`List Char → ℕ → ℚ`).  Machine floats are modelled as elements of a
`LinearOrderedField` (`ℚ` for executable witnesses, `ℝ` where π appears).
-/

/-! ## Python string helpers -/

/-- ASCII fragment of Python's `\s` class (space, tab, newline, carriage
return, vertical tab, form feed). -/
def isSpc (c : Char) : Bool :=
  c == ' ' || c == '\t' || c == '\n' || c == '\r' ||
  c == Char.ofNat 11 || c == Char.ofNat 12

/-- ASCII fragment of Python's `\w` class. -/
def isWrd (c : Char) : Bool := c.isAlphanum || c == '_'

/-- Python regex `.` (any char except newline). -/
def isDot (c : Char) : Bool := c != '\n'

/-- Python `str.strip()` (whitespace trimmed from both ends). -/
def pyStrip (s : List Char) : List Char :=
  ((s.dropWhile isSpc).reverse.dropWhile isSpc).reverse

/-- Python `str.lower()` (ASCII fragment). -/
def pyLower (s : List Char) : List Char := s.map Char.toLower

/-- Python's substring test `needle in haystack`. -/
def containsSub (hay needle : List Char) : Bool :=
  match hay with
  | [] => needle.isEmpty
  | _ :: t => needle.isPrefixOf hay || containsSub t needle

/-! ## A small backtracking regex engine

Just enough of Python `re` semantics for the patterns appearing in the
sources: ordered alternation, greedy `?`, greedy / lazy repetition of a
one-character class, one capturing group, and the `$` anchor.  `re.search`
semantics: the leftmost starting position wins; within one starting
position the backtracking order is Python's (alternatives left to right,
greedy longest-first, lazy shortest-first). -/

inductive RE where
  | lit   : List Char → RE
  | alt   : RE → RE → RE
  | cat   : RE → RE → RE
  | opt   : RE → RE
  | plusG : (Char → Bool) → RE
  | starG : (Char → Bool) → RE
  | plusL : (Char → Bool) → RE
  | starL : (Char → Bool) → RE
  | grp   : RE → RE
  | eos   : RE

/-- Span of the single capturing group, when set. -/
abbrev Cap := Option (Nat × Nat)

/-- Length of the maximal run of `cls`-characters at the head. -/
def runLen (cls : Char → Bool) : List Char → Nat
  | [] => 0
  | c :: cs => if cls c then runLen cls cs + 1 else 0

/-- Try `f n, f (n-1), …, f 0`, first success wins (greedy `*`). -/
def tryDown (f : Nat → Option Cap) : Nat → Option Cap
  | 0 => f 0
  | n + 1 => f (n + 1) <|> tryDown f n

/-- Try `f n, f (n-1), …, f 1`, first success wins (greedy `+`). -/
def tryDown1 (f : Nat → Option Cap) : Nat → Option Cap
  | 0 => none
  | n + 1 => f (n + 1) <|> tryDown1 f n

/-- Try `f 0, f 1, …, f n` (lazy `*`). -/
def tryUp (f : Nat → Option Cap) (n : Nat) : Option Cap :=
  tryDown (fun i => f (n - i)) n

/-- Try `f 1, f 2, …, f n` (lazy `+`). -/
def tryUp1 (f : Nat → Option Cap) (n : Nat) : Option Cap :=
  tryDown1 (fun i => f (n + 1 - i)) n

def isPrefixAt (s cs : List Char) (pos : Nat) : Bool :=
  s.isPrefixOf (cs.drop pos)

/-- CPS matcher: match `r` in `cs` (length `n`) starting at `pos` with
capture state `cap`; `k` continues after `r`. -/
def reM (cs : List Char) (n : Nat) :
    RE → Nat → Cap → (Nat → Cap → Option Cap) → Option Cap
  | .lit s, pos, cap, k =>
      if isPrefixAt s cs pos then k (pos + s.length) cap else none
  | .alt r1 r2, pos, cap, k => reM cs n r1 pos cap k <|> reM cs n r2 pos cap k
  | .cat r1 r2, pos, cap, k =>
      reM cs n r1 pos cap (fun p c => reM cs n r2 p c k)
  | .opt r, pos, cap, k => reM cs n r pos cap k <|> k pos cap
  | .plusG cls, pos, cap, k =>
      tryDown1 (fun i => k (pos + i) cap) (runLen cls (cs.drop pos))
  | .starG cls, pos, cap, k =>
      tryDown (fun i => k (pos + i) cap) (runLen cls (cs.drop pos))
  | .plusL cls, pos, cap, k =>
      tryUp1 (fun i => k (pos + i) cap) (runLen cls (cs.drop pos))
  | .starL cls, pos, cap, k =>
      tryUp (fun i => k (pos + i) cap) (runLen cls (cs.drop pos))
  | .grp r, pos, cap, k => reM cs n r pos cap (fun p _ => k p (some (pos, p)))
  | .eos, pos, cap, k =>
      if pos = n ∨ (pos + 1 = n ∧ (cs.drop pos).headD 'x' = '\n') then
        k pos cap
      else none

def firstSomeO : List (Option Cap) → Option Cap
  | [] => none
  | o :: rest => o <|> firstSomeO rest

/-- `re.search`: earliest starting position that admits a match; returns
the span of group 1. -/
def reSearch (r : RE) (cs : List Char) : Cap :=
  match firstSomeO ((List.range (cs.length + 1)).map
      (fun pos => reM cs cs.length r pos none (fun _ c => some c))) with
  | some c => c
  | none => none

/-- `m.group(1)` of the leftmost match, `none` when the regex does not
match anywhere. -/
def extractGroup (r : RE) (cs : List Char) : Option (List Char) :=
  match reSearch r cs with
  | some (a, b) => some ((cs.drop a).take (b - a))
  | none => none

/-- `m.group(1).strip()` of the leftmost match. -/
def extractPhrase (r : RE) (cs : List Char) : Option (List Char) :=
  (extractGroup r cs).map pyStrip

/-! ## The concrete patterns of the sources -/

def sLit (s : String) : RE := .lit s.toList

/-- `(?:the\s+)` -/
def theSp : RE := .cat (sLit "the") (.plusG isSpc)

/-- `(?:\s+(?:and|then|,)|$)` -/
def tailRe : RE :=
  .alt (.cat (.plusG isSpc) (.alt (sLit "and") (.alt (sLit "then") (sLit ","))))
    .eos

/-- p.py line 125 (also p_clip.py line 179):
`(?:pick|grab|take|lift|pick up)\s+(?:the\s+)?(.+?)(?:\s+(?:and|then|,)|$)` -/
def pickReP : RE :=
  .cat (.alt (sLit "pick") (.alt (sLit "grab")
      (.alt (sLit "take") (.alt (sLit "lift") (sLit "pick up")))))
    (.cat (.plusG isSpc) (.cat (.opt theSp) (.cat (.grp (.plusL isDot)) tailRe)))

/-- `(?:on|onto|in|into|at|over)` -/
def prepP : RE :=
  .alt (sLit "on") (.alt (sLit "onto")
    (.alt (sLit "in") (.alt (sLit "into") (.alt (sLit "at") (sLit "over")))))

/-- p.py line 126:
`(?:place|put|set|drop|stack)\s+(?:it\s+)?(?:on|onto|in|into|at|over)?\s*(?:the\s+)?(.+?)(?:\s+(?:and|then|,)|$)` -/
def placeReP : RE :=
  .cat (.alt (sLit "place") (.alt (sLit "put")
      (.alt (sLit "set") (.alt (sLit "drop") (sLit "stack")))))
    (.cat (.plusG isSpc)
      (.cat (.opt (.cat (sLit "it") (.plusG isSpc)))
        (.cat (.opt prepP)
          (.cat (.starG isSpc)
            (.cat (.opt theSp) (.cat (.grp (.plusL isDot)) tailRe))))))

/-- p_clip.py line 180 preposition group (with its duplicated `onto`):
`(?:on|onto|in|into|at|over|onto)` -/
def prepPC : RE :=
  .alt (sLit "on") (.alt (sLit "onto")
    (.alt (sLit "in") (.alt (sLit "into")
      (.alt (sLit "at") (.alt (sLit "over") (sLit "onto"))))))

/-- p_clip.py line 180. -/
def placeRePC : RE :=
  .cat (.alt (sLit "place") (.alt (sLit "put")
      (.alt (sLit "set") (.alt (sLit "drop") (sLit "stack")))))
    (.cat (.plusG isSpc)
      (.cat (.opt (.cat (sLit "it") (.plusG isSpc)))
        (.cat (.opt prepPC)
          (.cat (.starG isSpc)
            (.cat (.opt theSp) (.cat (.grp (.plusL isDot)) tailRe))))))

/-- `(?:pick\s+up|pick|grab|take|lift|get)` (Simullation.py lines 198-199). -/
def simVerb : RE :=
  .alt (.cat (sLit "pick") (.cat (.plusG isSpc) (sLit "up")))
    (.alt (sLit "pick") (.alt (sLit "grab")
      (.alt (sLit "take") (.alt (sLit "lift") (sLit "get")))))

/-- Simullation.py pick pattern 1:
`(?:pick\s+up|pick|grab|take|lift|get)\s+(?:the\s+)?(\w+)` -/
def simPick1 : RE :=
  .cat simVerb (.cat (.plusG isSpc) (.cat (.opt theSp) (.grp (.plusG isWrd))))

/-- Simullation.py pick pattern 2:
`(?:pick\s+up|pick|grab|take|lift|get)\s+(?:the\s+)?(\w+\s+\w+)` -/
def simPick2 : RE :=
  .cat simVerb (.cat (.plusG isSpc)
    (.cat (.opt theSp)
      (.grp (.cat (.plusG isWrd) (.cat (.plusG isSpc) (.plusG isWrd))))))

/-- `(?:on|onto|to|at|over)` (Simullation.py place patterns). -/
def prepS : RE :=
  .alt (sLit "on") (.alt (sLit "onto")
    (.alt (sLit "to") (.alt (sLit "at") (sLit "over"))))

/-- Simullation.py place pattern 1:
`(?:place|put|set|drop|move).*?(?:on|onto|to|at|over)\s+(?:the\s+)?(\w+)` -/
def simPlace1 : RE :=
  .cat (.alt (sLit "place") (.alt (sLit "put")
      (.alt (sLit "set") (.alt (sLit "drop") (sLit "move")))))
    (.cat (.starL isDot)
      (.cat prepS (.cat (.plusG isSpc) (.cat (.opt theSp) (.grp (.plusG isWrd))))))

/-- Simullation.py place pattern 2:
`(?:on|onto|to|at|over)\s+(?:the\s+)?(\w+\s+\w+)` -/
def simPlace2 : RE :=
  .cat prepS (.cat (.plusG isSpc)
    (.cat (.opt theSp)
      (.grp (.cat (.plusG isWrd) (.cat (.plusG isSpc) (.plusG isWrd))))))

/-- Simullation.py place pattern 3:
`(?:on|onto|to|at|over)\s+(?:the\s+)?(\w+)` -/
def simPlace3 : RE :=
  .cat prepS (.cat (.plusG isSpc) (.cat (.opt theSp) (.grp (.plusG isWrd))))

/-! ## ActionTokenizerV2 (Simullation.py lines 23-57)

`torch.linspace(lo, hi, 11)` is the evenly spaced grid
`lo + i*(hi-lo)/10`, `i = 0..10`; `discretize` takes
`torch.argmin(torch.abs(bins - value))` (first index on ties) and
recentres it by `- 5`, then formats the token as `f"{prefix}_{val:+d}"`.
Floats are modelled by a linear ordered field. -/

namespace ActionTokenizerV2

/-- `torch.linspace lo hi 11` entry `i`. -/
def linspace {α : Type} [LinearOrderedField α] (lo hi : α) (i : ℕ) : α :=
  lo + (i : α) * (hi - lo) / 10

/-- First index in `0..n` minimising `f` (ties go to the smaller index,
as `torch.argmin` returns the first minimal value). -/
def firstArgmin {β : Type} [LinearOrder β] (f : ℕ → β) : ℕ → ℕ
  | 0 => 0
  | n + 1 =>
    if f (n + 1) < f (firstArgmin f n) then n + 1 else firstArgmin f n

/-- `torch.argmin(torch.abs(bins - value))` over the 11 bins. -/
def nearestIdx {α : Type} [LinearOrderedField α] (bins : ℕ → α) (v : α) : ℕ :=
  firstArgmin (fun i => |bins i - v|) 10

/-- `idx - 5`, the integer component of the emitted token. -/
def tokenVal {α : Type} [LinearOrderedField α] (bins : ℕ → α) (v : α) : ℤ :=
  (nearestIdx bins v : ℤ) - 5

/-- Python `"%+d"` formatting. -/
def fmtSigned (z : ℤ) : List Char :=
  if 0 ≤ z then '+' :: (toString z).toList else (toString z).toList

/-- `discretize(value, bins, prefix)`: the emitted token text. -/
def discretize {α : Type} [LinearOrderedField α]
    (bins : ℕ → α) (v : α) (pre : List Char) : List Char :=
  pre ++ ('_' :: fmtSigned (tokenVal bins v))

/-- `self.x_bins = torch.linspace(-half_size, half_size, 11)`. -/
def xBins {α : Type} [LinearOrderedField α] (envSize : α) : ℕ → α :=
  linspace (-(envSize / 2)) (envSize / 2)

/-- `self.y_bins = torch.linspace(-half_size, half_size, 11)`. -/
def yBins {α : Type} [LinearOrderedField α] (envSize : α) : ℕ → α :=
  linspace (-(envSize / 2)) (envSize / 2)

/-- `self.z_bins = torch.linspace(0, env_height_meters, 11)`. -/
def zBins {α : Type} [LinearOrderedField α] (envHeight : α) : ℕ → α :=
  linspace 0 envHeight

variable {α : Type} [LinearOrderedField α] {β : Type} [LinearOrder β]

lemma firstArgmin_le (f : ℕ → β) : ∀ n, firstArgmin f n ≤ n
  | 0 => Nat.le_refl 0
  | n + 1 => by
    simp only [firstArgmin]
    split
    · exact Nat.le_refl _
    · exact Nat.le_succ_of_le (firstArgmin_le f n)

lemma firstArgmin_min (f : ℕ → β) : ∀ n i, i ≤ n → f (firstArgmin f n) ≤ f i := by
  intro n
  induction n with
  | zero =>
    intro i hi
    have : i = 0 := Nat.le_zero.mp hi
    subst this
    exact le_of_eq rfl
  | succ n ih =>
    intro i hi
    simp only [firstArgmin]
    split
    · rename_i hlt
      rcases Nat.lt_succ_iff_lt_or_eq.mp (Nat.lt_succ_of_le hi) with h | h
      · exact le_of_lt (lt_of_lt_of_le hlt (ih i (Nat.lt_succ_iff.mp h)))
      · exact le_of_eq (congrArg f h.symm)
    · rename_i hge
      rcases Nat.lt_succ_iff_lt_or_eq.mp (Nat.lt_succ_of_le hi) with h | h
      · exact ih i (Nat.lt_succ_iff.mp h)
      · subst h
        exact le_of_not_lt hge

lemma firstArgmin_lt_of_lt (f : ℕ → β) :
    ∀ n i, i < firstArgmin f n → f (firstArgmin f n) < f i := by
  intro n
  induction n with
  | zero =>
    intro i hi
    exact absurd hi (Nat.not_lt_zero i)
  | succ n ih =>
    intro i hi
    by_cases hc : f (n + 1) < f (firstArgmin f n)
    · simp only [firstArgmin, if_pos hc] at hi ⊢
      rcases Nat.lt_or_ge i (firstArgmin f n) with h | h
      · exact lt_trans hc (ih i h)
      · have hin : i ≤ n := Nat.lt_succ_iff.mp hi
        exact lt_of_lt_of_le hc (firstArgmin_min f n i hin)
    · simp only [firstArgmin, if_neg hc] at hi ⊢
      exact ih i hi

end ActionTokenizerV2

namespace ActionTokenizerV2

variable {α : Type} [LinearOrderedField α]

lemma linspace_lt (lo hi : α) (h : lo < hi) {i j : ℕ} (hij : i < j) :
    linspace lo hi i < linspace lo hi j := by
  have h1 : (i : α) * (hi - lo) < (j : α) * (hi - lo) :=
    mul_lt_mul_of_pos_right (by exact_mod_cast hij) (sub_pos.mpr h)
  unfold linspace
  linarith

lemma linspace_zero (lo hi : α) : linspace lo hi 0 = lo := by
  unfold linspace
  norm_num

lemma linspace_ten (lo hi : α) : linspace lo hi 10 = hi := by
  unfold linspace
  push_cast
  ring

lemma two_mul_lt_of_abs_lt {a b v : α} (hab : a < b) (h : |b - v| < |a - v|) :
    a + b < 2 * v := by
  rcases le_or_lt a v with hv | hv
  · have h1 : |a - v| = v - a := by
      rw [abs_sub_comm]
      exact abs_of_nonneg (sub_nonneg.mpr hv)
    have h2 : b - v ≤ |b - v| := le_abs_self _
    rw [h1] at h
    linarith
  · have h1 : |a - v| = a - v := abs_of_pos (sub_pos.mpr hv)
    have h2 : b - v ≤ |b - v| := le_abs_self _
    rw [h1] at h
    exfalso
    linarith

lemma abs_lt_of_two_mul_lt {a b v : α} (hab : a < b) (h : a + b < 2 * v) :
    |b - v| < |a - v| := by
  have hav : a < v := by linarith
  have h1 : |a - v| = v - a := by
    rw [abs_sub_comm]
    exact abs_of_pos (sub_pos.mpr hav)
  rw [h1]
  rcases le_or_lt b v with hv | hv
  · rw [abs_of_nonpos (sub_nonpos.mpr hv)]
    linarith
  · rw [abs_of_pos (sub_pos.mpr hv)]
    linarith

lemma nearestIdx_le_ten (bins : ℕ → α) (v : α) : nearestIdx bins v ≤ 10 :=
  firstArgmin_le _ 10

lemma firstArgmin_abs_self {b : ℕ → α} (hb : ∀ {i j : ℕ}, i < j → b i < b j)
    {i : ℕ} (hi10 : i ≤ 10) :
    firstArgmin (fun j => |b j - b i|) 10 = i := by
  have hmin : |b (firstArgmin (fun j => |b j - b i|) 10) - b i| ≤ |b i - b i| :=
    firstArgmin_min (fun j => |b j - b i|) 10 i hi10
  rw [sub_self, abs_zero] at hmin
  have h0 : b (firstArgmin (fun j => |b j - b i|) 10) = b i :=
    sub_eq_zero.mp (abs_eq_zero.mp (le_antisymm hmin (abs_nonneg _)))
  rcases lt_trichotomy (firstArgmin (fun j => |b j - b i|) 10) i with hlt | heq | hgt
  · exact absurd h0 (ne_of_lt (hb hlt))
  · exact heq
  · exact absurd h0 (ne_of_gt (hb hgt))

lemma firstArgmin_abs_mono {b : ℕ → α} (hb : ∀ {i j : ℕ}, i < j → b i < b j)
    {v1 v2 : α} (h12 : v1 ≤ v2) :
    firstArgmin (fun i => |b i - v1|) 10 ≤ firstArgmin (fun i => |b i - v2|) 10 := by
  by_contra hc
  push_neg at hc
  have hj1 : firstArgmin (fun i => |b i - v1|) 10 ≤ 10 := firstArgmin_le _ 10
  have hA : |b (firstArgmin (fun i => |b i - v2|) 10) - v2| ≤
      |b (firstArgmin (fun i => |b i - v1|) 10) - v2| :=
    firstArgmin_min (fun i => |b i - v2|) 10 _ hj1
  have hB : |b (firstArgmin (fun i => |b i - v1|) 10) - v1| <
      |b (firstArgmin (fun i => |b i - v2|) 10) - v1| :=
    firstArgmin_lt_of_lt (fun i => |b i - v1|) 10 _ hc
  have hbb : b (firstArgmin (fun i => |b i - v2|) 10) <
      b (firstArgmin (fun i => |b i - v1|) 10) := hb hc
  have hm := two_mul_lt_of_abs_lt hbb hB
  exact absurd hA (not_le.mpr (abs_lt_of_two_mul_lt hbb (by linarith)))

lemma firstArgmin_abs_low {b : ℕ → α} (hb : ∀ {i j : ℕ}, i < j → b i < b j)
    {v : α} (hv : v ≤ b 0) :
    firstArgmin (fun i => |b i - v|) 10 = 0 := by
  by_contra hne
  have hpos : 0 < firstArgmin (fun i => |b i - v|) 10 := Nat.pos_of_ne_zero hne
  have hmin : |b (firstArgmin (fun i => |b i - v|) 10) - v| ≤ |b 0 - v| :=
    firstArgmin_min (fun i => |b i - v|) 10 0 (Nat.zero_le 10)
  have hv0 : v ≤ b (firstArgmin (fun i => |b i - v|) 10) :=
    le_trans hv (le_of_lt (hb hpos))
  rw [abs_of_nonneg (sub_nonneg.mpr hv0), abs_of_nonneg (sub_nonneg.mpr hv)] at hmin
  have := hb hpos
  linarith

lemma firstArgmin_abs_high {b : ℕ → α} (hb : ∀ {i j : ℕ}, i < j → b i < b j)
    {v : α} (hv : b 10 ≤ v) :
    firstArgmin (fun i => |b i - v|) 10 = 10 := by
  have hle : firstArgmin (fun i => |b i - v|) 10 ≤ 10 := firstArgmin_le _ 10
  by_contra hne
  have hlt : firstArgmin (fun i => |b i - v|) 10 < 10 := lt_of_le_of_ne hle hne
  have hmin : |b (firstArgmin (fun i => |b i - v|) 10) - v| ≤ |b 10 - v| :=
    firstArgmin_min (fun i => |b i - v|) 10 10 (le_refl 10)
  have hbj : b (firstArgmin (fun i => |b i - v|) 10) < b 10 := hb hlt
  have hvj : b (firstArgmin (fun i => |b i - v|) 10) ≤ v := le_trans (le_of_lt hbj) hv
  rw [abs_of_nonpos (sub_nonpos.mpr hvj), abs_of_nonpos (sub_nonpos.mpr hv)] at hmin
  linarith

lemma nearestIdx_linspace_self (lo hi : α) (h : lo < hi) (i : ℕ) (hi10 : i ≤ 10) :
    nearestIdx (linspace lo hi) (linspace lo hi i) = i :=
  firstArgmin_abs_self (fun hij => linspace_lt lo hi h hij) hi10

lemma nearestIdx_mono (lo hi : α) (h : lo < hi) (v1 v2 : α) (h12 : v1 ≤ v2) :
    nearestIdx (linspace lo hi) v1 ≤ nearestIdx (linspace lo hi) v2 :=
  firstArgmin_abs_mono (fun hij => linspace_lt lo hi h hij) h12

lemma nearestIdx_lo (lo hi : α) (h : lo < hi) (v : α) (hv : v ≤ lo) :
    nearestIdx (linspace lo hi) v = 0 :=
  firstArgmin_abs_low (fun hij => linspace_lt lo hi h hij)
    (by rw [linspace_zero]; exact hv)

lemma nearestIdx_hi (lo hi : α) (h : lo < hi) (v : α) (hv : hi ≤ v) :
    nearestIdx (linspace lo hi) v = 10 :=
  firstArgmin_abs_high (fun hij => linspace_lt lo hi h hij)
    (by rw [linspace_ten]; exact hv)

end ActionTokenizerV2

/-- C5: for every axis (x, y, z, yaw of `ActionTokenizerV2.__init__` with the
defaults `env_size_meters=3.0`, `env_height_meters=1.0`) and each of the 11
evenly spaced bin-center values `c_i` (`i = 0..10`), `discretize(c_i)` emits
exactly the signed integer `i - 5`. -/
theorem claim_C5 (i : Fin 11) :
    ActionTokenizerV2.tokenVal (ActionTokenizerV2.xBins (3 : ℝ))
        (ActionTokenizerV2.xBins (3 : ℝ) i) = ((i : ℕ) : ℤ) - 5 ∧
    ActionTokenizerV2.tokenVal (ActionTokenizerV2.yBins (3 : ℝ))
        (ActionTokenizerV2.yBins (3 : ℝ) i) = ((i : ℕ) : ℤ) - 5 ∧
    ActionTokenizerV2.tokenVal (ActionTokenizerV2.zBins (1 : ℝ))
        (ActionTokenizerV2.zBins (1 : ℝ) i) = ((i : ℕ) : ℤ) - 5 ∧
    ActionTokenizerV2.tokenVal
        (ActionTokenizerV2.linspace (-(Real.pi / 2)) (Real.pi / 2))
        (ActionTokenizerV2.linspace (-(Real.pi / 2)) (Real.pi / 2) i) =
      ((i : ℕ) : ℤ) - 5 := by
  have hi10 : (i : ℕ) ≤ 10 := Nat.lt_succ_iff.mp i.isLt
  refine ⟨?_, ?_, ?_, ?_⟩
  · simp only [ActionTokenizerV2.tokenVal, ActionTokenizerV2.xBins]
    rw [ActionTokenizerV2.nearestIdx_linspace_self (-(3 / 2) : ℝ) (3 / 2)
      (by norm_num) i hi10]
  · simp only [ActionTokenizerV2.tokenVal, ActionTokenizerV2.yBins]
    rw [ActionTokenizerV2.nearestIdx_linspace_self (-(3 / 2) : ℝ) (3 / 2)
      (by norm_num) i hi10]
  · simp only [ActionTokenizerV2.tokenVal, ActionTokenizerV2.zBins]
    rw [ActionTokenizerV2.nearestIdx_linspace_self (0 : ℝ) 1 (by norm_num) i hi10]
  · simp only [ActionTokenizerV2.tokenVal]
    rw [ActionTokenizerV2.nearestIdx_linspace_self (-(Real.pi / 2)) (Real.pi / 2)
      (by have := Real.pi_pos; linarith) i hi10]

/-- C6: on every axis range `[lo, hi]` (this covers the tokenizer's four
axes, whose ranges all satisfy `lo < hi`), `discretize` is monotone
non-decreasing in its numeric input over the configured range. -/
theorem claim_C6 (lo hi : ℝ) (h : lo < hi) (v1 v2 : ℝ)
    (h1 : lo ≤ v1) (h12 : v1 ≤ v2) (h2 : v2 ≤ hi) :
    ActionTokenizerV2.tokenVal (ActionTokenizerV2.linspace lo hi) v1 ≤
      ActionTokenizerV2.tokenVal (ActionTokenizerV2.linspace lo hi) v2 := by
  have := ActionTokenizerV2.nearestIdx_mono lo hi h v1 v2 h12
  simp only [ActionTokenizerV2.tokenVal]
  omega

/-- Witness for C6 at the z-axis range `[0, 1]` with inputs `1/4 ≤ 1/2`. -/
theorem claim_C6_witness :
    ((0 : ℝ) < 1 ∧ (0 : ℝ) ≤ 1 / 4 ∧ (1 / 4 : ℝ) ≤ 1 / 2 ∧ (1 / 2 : ℝ) ≤ 1) ∧
    ActionTokenizerV2.tokenVal (ActionTokenizerV2.linspace (0 : ℝ) 1) (1 / 4) ≤
      ActionTokenizerV2.tokenVal (ActionTokenizerV2.linspace (0 : ℝ) 1) (1 / 2) :=
  ⟨⟨by norm_num, by norm_num, by norm_num, by norm_num⟩,
    claim_C6 0 1 (by norm_num) (1 / 4) (1 / 2) (by norm_num) (by norm_num)
      (by norm_num)⟩

/-- C7: on every axis range `[lo, hi]`, for every real input the emitted
token's integer component lies in `[-5, 5]`; input at or below `lo` clamps
to the edge bin `-5`, input at or above `hi` clamps to `+5` (and the
function is total, hence never errors). -/
theorem claim_C7 (lo hi v : ℝ) (h : lo < hi) :
    (-5 ≤ ActionTokenizerV2.tokenVal (ActionTokenizerV2.linspace lo hi) v ∧
      ActionTokenizerV2.tokenVal (ActionTokenizerV2.linspace lo hi) v ≤ 5) ∧
    (v ≤ lo → ActionTokenizerV2.tokenVal (ActionTokenizerV2.linspace lo hi) v = -5) ∧
    (hi ≤ v → ActionTokenizerV2.tokenVal (ActionTokenizerV2.linspace lo hi) v = 5) := by
  refine ⟨⟨?_, ?_⟩, ?_, ?_⟩
  · simp only [ActionTokenizerV2.tokenVal]
    omega
  · have := ActionTokenizerV2.nearestIdx_le_ten (ActionTokenizerV2.linspace lo hi) v
    simp only [ActionTokenizerV2.tokenVal]
    omega
  · intro hv
    have := ActionTokenizerV2.nearestIdx_lo lo hi h v hv
    simp only [ActionTokenizerV2.tokenVal]
    omega
  · intro hv
    have := ActionTokenizerV2.nearestIdx_hi lo hi h v hv
    simp only [ActionTokenizerV2.tokenVal]
    omega

/-- Witness for C7 at the z-axis range `[0, 1]` with the out-of-range
input `5`, which clamps to the top bin. -/
theorem claim_C7_witness :
    ((0 : ℝ) < 1) ∧ ((1 : ℝ) ≤ 5) ∧
    ActionTokenizerV2.tokenVal (ActionTokenizerV2.linspace (0 : ℝ) 1) 5 = 5 :=
  ⟨by norm_num, by norm_num, (claim_C7 0 1 5 (by norm_num)).2.2 (by norm_num)⟩

/-! ## ActionExecutor (Simullation.py lines 91-138)

The 8D action vectors `(terminate, x, y, z, roll, pitch, yaw, gripper)`.
`__init__` sets `home_pos=(0,0,0.7)`, `home_rot=(0,0,0)`, `gripper_open=1`;
each generator returns its action list and mutates only `gripper_open`. -/

structure ActionVec (α : Type) where
  terminate : ℤ
  x : α
  y : α
  z : α
  roll : α
  pitch : α
  yaw : α
  gripper : ℤ

structure ActionExecutor (α : Type) where
  home_pos : α × α × α
  home_rot : α × α × α
  gripper_open : ℤ

/-- `ActionExecutor.__init__`. -/
def mkActionExecutor {α : Type} [LinearOrderedField α] : ActionExecutor α :=
  ⟨(0, 0, 7 / 10), (0, 0, 0), 1⟩

/-- `generate_pick_actions(pos, is_final)`: returns the four vectors and
the post-call executor state (`gripper_open = 0`). -/
def generate_pick_actions {α : Type} [LinearOrderedField α] (e : ActionExecutor α)
    (pos : α × α × α) (is_final : Bool) :
    List (ActionVec α) × ActionExecutor α :=
  let pos_above : α × α × α := (pos.1, pos.2.1, pos.2.2 + 1 / 10)
  let tflag : ℤ := if is_final then 1 else 0
  ([⟨0, pos_above.1, pos_above.2.1, pos_above.2.2,
      e.home_rot.1, e.home_rot.2.1, e.home_rot.2.2, 1⟩,
    ⟨0, pos.1, pos.2.1, pos.2.2,
      e.home_rot.1, e.home_rot.2.1, e.home_rot.2.2, 1⟩,
    ⟨0, pos.1, pos.2.1, pos.2.2,
      e.home_rot.1, e.home_rot.2.1, e.home_rot.2.2, 0⟩,
    ⟨tflag, pos_above.1, pos_above.2.1, pos_above.2.2,
      e.home_rot.1, e.home_rot.2.1, e.home_rot.2.2, 0⟩],
   { e with gripper_open := 0 })

/-- `generate_place_actions(pos, is_final)`: returns the five vectors and
the post-call executor state (`gripper_open = 1`). -/
def generate_place_actions {α : Type} [LinearOrderedField α] (e : ActionExecutor α)
    (pos : α × α × α) (is_final : Bool) :
    List (ActionVec α) × ActionExecutor α :=
  let pos_above : α × α × α := (pos.1, pos.2.1, pos.2.2 + 1 / 10)
  let tflag : ℤ := if is_final then 1 else 0
  ([⟨0, pos_above.1, pos_above.2.1, pos_above.2.2,
      e.home_rot.1, e.home_rot.2.1, e.home_rot.2.2, 0⟩,
    ⟨0, pos.1, pos.2.1, pos.2.2,
      e.home_rot.1, e.home_rot.2.1, e.home_rot.2.2, 0⟩,
    ⟨0, pos.1, pos.2.1, pos.2.2,
      e.home_rot.1, e.home_rot.2.1, e.home_rot.2.2, 1⟩,
    ⟨0, pos_above.1, pos_above.2.1, pos_above.2.2,
      e.home_rot.1, e.home_rot.2.1, e.home_rot.2.2, 1⟩,
    ⟨tflag, e.home_pos.1, e.home_pos.2.1, e.home_pos.2.2,
      e.home_rot.1, e.home_rot.2.1, e.home_rot.2.2, 1⟩],
   { e with gripper_open := 1 })

/-- Executor states reachable from `__init__` by any history of generator
calls. -/
inductive ReachableExec {α : Type} [LinearOrderedField α] : ActionExecutor α → Prop where
  | init : ReachableExec mkActionExecutor
  | pick (e : ActionExecutor α) (pos : α × α × α) (f : Bool) :
      ReachableExec e → ReachableExec (generate_pick_actions e pos f).2
  | place (e : ActionExecutor α) (pos : α × α × α) (f : Bool) :
      ReachableExec e → ReachableExec (generate_place_actions e pos f).2

lemma reachableExec_home {α : Type} [LinearOrderedField α] {e : ActionExecutor α}
    (h : ReachableExec e) :
    e.home_pos = (0, 0, 7 / 10) ∧ e.home_rot = (0, 0, 0) := by
  induction h with
  | init => exact ⟨rfl, rfl⟩
  | pick e pos f _ ih => simpa [generate_pick_actions] using ih
  | place e pos f _ ih => simpa [generate_place_actions] using ih

/-- C8: `generate_place_actions(pos, is_final=True)` returns exactly 5
vectors with `terminate == 1` only on vector 4; and in a combined
transaction `generate_pick_actions(pos1, is_final=False)` followed by
`generate_place_actions(pos2, is_final=True)` exactly one vector of the
concatenation carries `terminate = 1`, namely the last vector of the
final (place) subtask. -/
theorem claim_C8 {α : Type} [LinearOrderedField α] (e e' : ActionExecutor α)
    (pos pos1 pos2 : α × α × α) :
    ((generate_place_actions e pos true).1.length = 5 ∧
      (generate_place_actions e pos true).1.map ActionVec.terminate =
        [0, 0, 0, 0, 1]) ∧
    ((generate_pick_actions e' pos1 false).1 ++
        (generate_place_actions (generate_pick_actions e' pos1 false).2
          pos2 true).1).map ActionVec.terminate =
      [0, 0, 0, 0, 0, 0, 0, 0, 1] :=
  ⟨⟨rfl, rfl⟩, rfl⟩

/-- C9: the generated action sequences depend only on the arguments
`(pos, is_final)` — two calls with identical arguments from any two
reachable executor states (any history of prior calls, which only ever
mutates `gripper_open`) return identical sequences. -/
theorem claim_C9 {α : Type} [LinearOrderedField α] (e1 e2 : ActionExecutor α)
    (h1 : ReachableExec e1) (h2 : ReachableExec e2) (pos : α × α × α) (f : Bool) :
    (generate_pick_actions e1 pos f).1 = (generate_pick_actions e2 pos f).1 ∧
    (generate_place_actions e1 pos f).1 = (generate_place_actions e2 pos f).1 := by
  obtain ⟨hp1, hr1⟩ := reachableExec_home h1
  obtain ⟨hp2, hr2⟩ := reachableExec_home h2
  constructor
  · simp only [generate_pick_actions, hr1, hr2]
  · simp only [generate_place_actions, hp1, hp2, hr1, hr2]

/-- Witness for C9: the initial state and the state after one pick call
are both reachable, and one concrete pick call agrees from both. -/
theorem claim_C9_witness :
    ReachableExec (@mkActionExecutor ℚ _) ∧
    ReachableExec (generate_pick_actions (@mkActionExecutor ℚ _)
      ((1 : ℚ), 2, 3) false).2 ∧
    (generate_pick_actions (@mkActionExecutor ℚ _) ((4 : ℚ), 5, 6) true).1 =
      (generate_pick_actions
        (generate_pick_actions (@mkActionExecutor ℚ _) ((1 : ℚ), 2, 3) false).2
        ((4 : ℚ), 5, 6) true).1 :=
  ⟨.init, .pick _ _ _ .init,
    (claim_C9 _ _ .init (.pick _ _ _ .init) ((4 : ℚ), 5, 6) true).1⟩

/-! ## Score bookkeeping helpers shared by the matchers -/

/-- `torch.argmax` / Python `max(key=...)`: the first item attaining the
maximal score. -/
def argmaxFirst {β : Type} (f : β → ℚ) : List β → Option β
  | [] => none
  | b :: l =>
    match argmaxFirst f l with
    | none => some b
    | some c => if f c > f b then some c else some b

/-- One step of `uid_scores[uid] = max(uid_scores.get(uid, -1.0), s)` on
an insertion-ordered dict (assoc list). -/
def updAssoc : List (ℕ × ℚ) → ℕ → ℚ → List (ℕ × ℚ)
  | [], u, s => [(u, max (-1) s)]
  | (v, t) :: rest, u, s =>
    if v = u then (v, max t s) :: rest else (v, t) :: updAssoc rest u s

/-- Fold scored candidates into the per-object pooled score dict, in
candidate order. -/
def buildScores (f : ℕ × List Char → ℚ) :
    List (ℕ × List Char) → List (ℕ × ℚ) → List (ℕ × ℚ)
  | [], acc => acc
  | c :: cs, acc => buildScores f cs (updAssoc acc c.1 (f c))

/-- Stable insertion before the first strictly smaller score: building
block of Python's stable `sorted(..., key=score, reverse=True)`. -/
def insDesc (a : ℕ × ℚ) : List (ℕ × ℚ) → List (ℕ × ℚ)
  | [] => [a]
  | b :: l => if b.2 > a.2 then b :: insDesc a l else a :: b :: l

/-- Stable descending sort by score. -/
def sortDesc : List (ℕ × ℚ) → List (ℕ × ℚ)
  | [] => []
  | a :: l => insDesc a (sortDesc l)

lemma insDesc_length (a : ℕ × ℚ) (l : List (ℕ × ℚ)) :
    (insDesc a l).length = l.length + 1 := by
  induction l with
  | nil => rfl
  | cons b t ih =>
    simp only [insDesc]
    split
    · simp [ih]
    · simp

lemma sortDesc_length (l : List (ℕ × ℚ)) : (sortDesc l).length = l.length := by
  induction l with
  | nil => rfl
  | cons a t ih => simp [sortDesc, insDesc_length, ih]

lemma mem_insDesc {x a : ℕ × ℚ} {l : List (ℕ × ℚ)} :
    x ∈ insDesc a l ↔ x = a ∨ x ∈ l := by
  induction l with
  | nil => simp [insDesc]
  | cons b t ih =>
    simp only [insDesc]
    split
    · rw [List.mem_cons, ih, List.mem_cons]
      tauto
    · rw [List.mem_cons]

lemma mem_sortDesc {x : ℕ × ℚ} {l : List (ℕ × ℚ)} :
    x ∈ sortDesc l ↔ x ∈ l := by
  induction l with
  | nil => simp [sortDesc]
  | cons a t ih => simp [sortDesc, mem_insDesc, ih]

lemma updAssoc_keys (l : List (ℕ × ℚ)) (u : ℕ) (s : ℚ) :
    (updAssoc l u s).map Prod.fst =
      if u ∈ l.map Prod.fst then l.map Prod.fst
      else l.map Prod.fst ++ [u] := by
  induction l with
  | nil => simp [updAssoc]
  | cons b t ih =>
    obtain ⟨v, tv⟩ := b
    simp only [updAssoc]
    by_cases hv : v = u
    · subst hv
      simp
    · rw [if_neg hv]
      simp only [List.map_cons, ih]
      by_cases hm : u ∈ t.map Prod.fst
      · rw [if_pos hm, if_pos]
        simp [hm]
      · rw [if_neg hm, if_neg]
        · simp
        · simp only [List.mem_cons]
          push_neg
          exact ⟨fun h => hv h.symm, hm⟩

lemma updAssoc_ne_nil (l : List (ℕ × ℚ)) (u : ℕ) (s : ℚ) :
    updAssoc l u s ≠ [] := by
  cases l with
  | nil => simp [updAssoc]
  | cons b t =>
    obtain ⟨v, tv⟩ := b
    simp only [updAssoc]
    split <;> simp

lemma buildScores_acc_ne (f : ℕ × List Char → ℚ) (cs : List (ℕ × List Char)) :
    ∀ acc, acc ≠ [] → buildScores f cs acc ≠ [] := by
  induction cs with
  | nil => intro acc h; exact h
  | cons c t ih =>
    intro acc h
    simp only [buildScores]
    exact ih _ (updAssoc_ne_nil _ _ _)

lemma buildScores_ne_nil (f : ℕ × List Char → ℚ) {cs : List (ℕ × List Char)}
    (h : cs ≠ []) : buildScores f cs [] ≠ [] := by
  cases cs with
  | nil => exact absurd rfl h
  | cons c t =>
    simp only [buildScores]
    exact buildScores_acc_ne f t _ (updAssoc_ne_nil _ _ _)

lemma updAssoc_keys_sub {l : List (ℕ × ℚ)} {u x : ℕ} {s : ℚ}
    (h : x ∈ (updAssoc l u s).map Prod.fst) :
    x ∈ l.map Prod.fst ∨ x = u := by
  rw [updAssoc_keys] at h
  split at h
  · exact Or.inl h
  · rcases List.mem_append.mp h with h' | h'
    · exact Or.inl h'
    · exact Or.inr (List.mem_singleton.mp h')

lemma buildScores_keys_sub (f : ℕ × List Char → ℚ) (cs : List (ℕ × List Char)) :
    ∀ acc x, x ∈ (buildScores f cs acc).map Prod.fst →
      x ∈ acc.map Prod.fst ∨ x ∈ cs.map Prod.fst := by
  induction cs with
  | nil => intro acc x h; exact Or.inl h
  | cons c t ih =>
    intro acc x h
    simp only [buildScores] at h
    rcases ih _ x h with h' | h'
    · rcases updAssoc_keys_sub h' with h'' | h''
      · exact Or.inl h''
      · exact Or.inr (by simp [h''])
    · exact Or.inr (by simp [h'])

lemma updAssoc_keys_nodup {l : List (ℕ × ℚ)} {u : ℕ} {s : ℚ}
    (h : (l.map Prod.fst).Nodup) : ((updAssoc l u s).map Prod.fst).Nodup := by
  rw [updAssoc_keys]
  split
  · exact h
  · rename_i hnm
    simp only [List.nodup_append, List.nodup_cons, List.nodup_nil]
    exact ⟨h, by simp, by simpa [List.disjoint_singleton] using hnm⟩

lemma buildScores_keys_nodup (f : ℕ × List Char → ℚ) (cs : List (ℕ × List Char)) :
    ∀ acc, (acc.map Prod.fst).Nodup →
      ((buildScores f cs acc).map Prod.fst).Nodup := by
  induction cs with
  | nil => intro acc h; exact h
  | cons c t ih =>
    intro acc h
    simp only [buildScores]
    exact ih _ (updAssoc_keys_nodup h)

lemma length_le_one_of_keys_eq {l : List (ℕ × ℚ)} {u : ℕ}
    (hn : (l.map Prod.fst).Nodup) (hall : ∀ x ∈ l.map Prod.fst, x = u) :
    l.length ≤ 1 := by
  match l with
  | [] => simp
  | [a] => simp
  | a :: b :: t =>
    exfalso
    have ha : a.1 = u := hall a.1 (by simp)
    have hb : b.1 = u := hall b.1 (by simp)
    simp only [List.map_cons, List.nodup_cons, List.mem_cons] at hn
    exact hn.1 (Or.inl (ha.trans hb.symm))

/-! ## CLIPMatcher.pick_and_place_from_text (Simullation.py lines 148-307)

The CLIP encoder is an oracle `sim query candidate : ℚ` (cosine similarity
of the two texts).  `objects_meta` is the insertion-ordered dict
`uid -> {'name': ...}`, modelled as an assoc list. -/

namespace CLIPMatcher

/-- The place target of Simullation.py: an object uid or the `"GROUND"`
sentinel. -/
inductive PlaceTarget where
  | obj : ℕ → PlaceTarget
  | ground : PlaceTarget
deriving DecidableEq

/-- The result triple `(pick_uid, place_uid_or_special, debug)`, keeping
the `place_on_ground` flag from `debug_scores`. -/
structure PPResult where
  pick : Option ℕ
  place : Option PlaceTarget
  ground : Bool

/-- `ground_keywords = ['ground', 'table', 'floor', 'down', 'surface']`. -/
def groundKeywords : List (List Char) :=
  ["ground".toList, "table".toList, "floor".toList, "down".toList,
    "surface".toList]

/-- `any(keyword in s for keyword in ground_keywords)`. -/
def hasGroundKw (s : List Char) : Bool :=
  groundKeywords.any (fun k => containsSub s k)

/-- The pick extraction loop (lines 197-205): first pattern that matches
wins, group 1 stripped. -/
def extractSimPick (txt : List Char) : Option (List Char) :=
  match extractPhrase simPick1 txt with
  | some ph => some ph
  | none => extractPhrase simPick2 txt

/-- The place extraction loop (lines 208-219): first pattern that matches
wins; if the matched phrase contains a ground keyword the ground flag is
set. -/
def extractSimPlace (txt : List Char) (pog : Bool) :
    Option (List Char) × Bool :=
  match extractPhrase simPlace1 txt with
  | some ph => (some ph, pog || hasGroundKw ph)
  | none =>
    match extractPhrase simPlace2 txt with
    | some ph => (some ph, pog || hasGroundKw ph)
    | none =>
      match extractPhrase simPlace3 txt with
      | some ph => (some ph, pog || hasGroundKw ph)
      | none => (none, pog)

/-- Candidate texts per object (lines 227-239):
`[name, name+" cube", name+" block", "the "+name, "the "+name+" cube"]`,
kept as `(uid, text)` pairs in dict order. -/
def simLookup : List (ℕ × List Char) → List (ℕ × List Char)
  | [] => []
  | (u, name) :: rest =>
    (u, name) :: (u, name ++ " cube".toList) :: (u, name ++ " block".toList) ::
    (u, "the ".toList ++ name) :: (u, "the ".toList ++ name ++ " cube".toList) ::
    simLookup rest

/-- Python truthiness of `exclude_uid` in `if exclude_uid and uid ==
exclude_uid` (note: uid 0 would not be excluded). -/
def excludeHit : Option ℕ → ℕ → Bool
  | none, _ => false
  | some e, u => (e != 0) && (u == e)

/-- Maximum of a score list (`torch.stack(all_sims).max(dim=0)` pointwise,
here per candidate). -/
def listMax1 : List ℚ → ℚ
  | [] => 0
  | a :: l => l.foldl max a

/-- Fold `(uid, score)` pairs into `uid_scores`, skipping excluded uids
(lines 260-266). -/
def buildScoresSkip (exclude : Option ℕ) :
    List (ℕ × ℚ) → List (ℕ × ℚ) → List (ℕ × ℚ)
  | [], acc => acc
  | (u, s) :: rest, acc =>
    if excludeHit exclude u then buildScoresSkip exclude rest acc
    else buildScoresSkip exclude rest (updAssoc acc u s)

/-- `best_uid_for(phrase, exclude_uid)` (lines 243-272): pool the maximum
over the four phrase variations per candidate, take the per-uid maximum,
return the first uid with the highest score (`none` when the dict is
empty). -/
def bestUidFor (sim : List Char → List Char → ℚ)
    (lookup : List (ℕ × List Char)) (phrase : List Char)
    (exclude : Option ℕ) : Option (ℕ × ℚ) :=
  let variations := [phrase, "the ".toList ++ phrase,
    phrase ++ " cube".toList, phrase ++ " block".toList]
  let scored := lookup.map
    (fun c => (c.1, listMax1 (variations.map (fun v => sim v c.2))))
  argmaxFirst (fun p => p.2) (buildScoresSkip exclude scored [])

/-- `pick_and_place_from_text(text, objects_meta)` (lines 182-307). -/
def pick_and_place_from_text (sim : List Char → List Char → ℚ)
    (text : List Char) (objects_meta : List (ℕ × List Char)) : PPResult :=
  let txt := pyLower text
  let pog0 := hasGroundKw txt
  let pickP := extractSimPick txt
  match extractSimPlace txt pog0 with
  | (placeP, pog) =>
    let lookup := simLookup objects_meta
    let pick0 : Option ℕ :=
      match pickP with
      | some pp =>
        if pp.isEmpty then none
        else (bestUidFor sim lookup pp none).map Prod.fst
      | none => none
    let place0 : Option PlaceTarget :=
      if pog then some .ground
      else
        match placeP with
        | some pl =>
          if pl.isEmpty then none
          else if pickP = some pl then none
          else (bestUidFor sim lookup pl pick0).map (fun q => PlaceTarget.obj q.1)
        | none => none
    let pick1 : Option ℕ :=
      match pick0 with
      | some p => some p
      | none =>
        match objects_meta.find? (fun om => containsSub txt om.2) with
        | some om => some om.1
        | none => (bestUidFor sim lookup txt none).map Prod.fst
    ⟨pick1, place0, pog⟩

lemma extractSimPlace_snd_true (txt : List Char) :
    (extractSimPlace txt true).2 = true := by
  unfold extractSimPlace
  rcases extractPhrase simPlace1 txt with _ | ph1
  · rcases extractPhrase simPlace2 txt with _ | ph2
    · rcases extractPhrase simPlace3 txt with _ | ph3 <;> simp
    · simp
  · simp

lemma extractSimPlace_snd_of_kw (txt : List Char) (pog : Bool) (pl : List Char)
    (hph : (extractSimPlace txt pog).1 = some pl)
    (hkw : hasGroundKw pl = true) :
    (extractSimPlace txt pog).2 = true := by
  unfold extractSimPlace at hph ⊢
  cases h1 : extractPhrase simPlace1 txt with
  | some ph1 =>
    rw [h1] at hph
    simp at hph ⊢
    subst hph
    exact Or.inr hkw
  | none =>
    rw [h1] at hph
    cases h2 : extractPhrase simPlace2 txt with
    | some ph2 =>
      rw [h2] at hph
      simp at hph ⊢
      subst hph
      exact Or.inr hkw
    | none =>
      rw [h2] at hph
      cases h3 : extractPhrase simPlace3 txt with
      | some ph3 =>
        rw [h3] at hph
        simp at hph ⊢
        subst hph
        exact Or.inr hkw
      | none =>
        rw [h3] at hph
        simp at hph

end CLIPMatcher

/-! ## Concrete scenes and score oracles used in concrete runs -/

/-- The scene of `create_scene()`: three visible cubes named red, green,
blue (uids are opaque; `1, 2, 3` here). -/
def objs3 : List (ℕ × List Char) :=
  [(1, "red".toList), (2, "green".toList), (3, "blue".toList)]

/-- A degenerate encoder giving every pair similarity `0`. -/
def simZero : List Char → List Char → ℚ := fun _ _ => 0

/-- An encoder under which the candidate text `"red"` scores highest
against every query. -/
def simRedCand : List Char → List Char → ℚ :=
  fun _ c => if c = "red".toList then 1 else 0

/-- An encoder under which the candidate text `"blue"` scores highest
against every query. -/
def simBlueCand : List Char → List Char → ℚ :=
  fun _ c => if c = "blue".toList then 1 else 0

lemma clipMatcher_ground_of_flag (sim : List Char → List Char → ℚ)
    (text : List Char) (objects : List (ℕ × List Char))
    (h : (CLIPMatcher.extractSimPlace (pyLower text)
        (CLIPMatcher.hasGroundKw (pyLower text))).2 = true) :
    (CLIPMatcher.pick_and_place_from_text sim text objects).ground = true ∧
    (CLIPMatcher.pick_and_place_from_text sim text objects).place =
      some CLIPMatcher.PlaceTarget.ground := by
  simp only [CLIPMatcher.pick_and_place_from_text]
  cases hpr : CLIPMatcher.extractSimPlace (pyLower text)
      (CLIPMatcher.hasGroundKw (pyLower text)) with
  | mk placeP pog =>
    rw [hpr] at h
    simp only at h
    subst h
    exact ⟨rfl, rfl⟩

/-- C2: whenever the lowercased command contains a ground keyword, or the
extracted place phrase contains one, the matcher sets the ground flag,
skips place-object resolution and returns the GROUND sentinel — in
particular for `"pick up the red cube and place it on the ground"` with
visible red/green/blue objects, under every score oracle. -/
theorem claim_C2 :
    (∀ (sim : List Char → List Char → ℚ) (text : List Char)
        (objects : List (ℕ × List Char)),
      CLIPMatcher.hasGroundKw (pyLower text) = true →
        (CLIPMatcher.pick_and_place_from_text sim text objects).ground = true ∧
        (CLIPMatcher.pick_and_place_from_text sim text objects).place =
          some CLIPMatcher.PlaceTarget.ground) ∧
    (∀ (sim : List Char → List Char → ℚ) (text : List Char)
        (objects : List (ℕ × List Char)) (pl : List Char),
      (CLIPMatcher.extractSimPlace (pyLower text)
          (CLIPMatcher.hasGroundKw (pyLower text))).1 = some pl →
      CLIPMatcher.hasGroundKw pl = true →
        (CLIPMatcher.pick_and_place_from_text sim text objects).ground = true ∧
        (CLIPMatcher.pick_and_place_from_text sim text objects).place =
          some CLIPMatcher.PlaceTarget.ground) ∧
    (∀ sim : List Char → List Char → ℚ,
      (CLIPMatcher.pick_and_place_from_text sim
          "pick up the red cube and place it on the ground".toList objs3).ground
        = true ∧
      (CLIPMatcher.pick_and_place_from_text sim
          "pick up the red cube and place it on the ground".toList objs3).place
        = some CLIPMatcher.PlaceTarget.ground) := by
  refine ⟨?_, ?_, ?_⟩
  · intro sim text objects h
    exact clipMatcher_ground_of_flag sim text objects
      (by rw [h]; exact CLIPMatcher.extractSimPlace_snd_true _)
  · intro sim text objects pl hph hkw
    exact clipMatcher_ground_of_flag sim text objects
      (CLIPMatcher.extractSimPlace_snd_of_kw _ _ _ hph hkw)
  · intro sim
    exact clipMatcher_ground_of_flag sim _ objs3 (by decide)

/-- Witness for C2: the spec's concrete command, under the degenerate
all-zero score oracle. -/
theorem claim_C2_witness :
    CLIPMatcher.hasGroundKw
      (pyLower "pick up the red cube and place it on the ground".toList) = true ∧
    (CLIPMatcher.pick_and_place_from_text simZero
        "pick up the red cube and place it on the ground".toList objs3).ground
      = true ∧
    (CLIPMatcher.pick_and_place_from_text simZero
        "pick up the red cube and place it on the ground".toList objs3).place
      = some CLIPMatcher.PlaceTarget.ground :=
  ⟨by decide, (claim_C2.1 simZero _ objs3 (by decide)).1,
    (claim_C2.1 simZero _ objs3 (by decide)).2⟩

/-- Counterexample to C1 as stated: in
`CLIPMatcher.pick_and_place_from_text` (Simullation.py), the command
`"put it on the red cube"` with three distinct visible objects resolves
the place target from the place phrase and then assigns the *same*
object to pick through the literal fallback, returning
`pick_uid == place_uid`. -/
theorem claim_C1_counterexample :
    (objs3.map Prod.fst).Nodup ∧ 2 ≤ objs3.length ∧
    (CLIPMatcher.pick_and_place_from_text simRedCand
        "put it on the red cube".toList objs3).pick = some 1 ∧
    (CLIPMatcher.pick_and_place_from_text simRedCand
        "put it on the red cube".toList objs3).place =
      some (CLIPMatcher.PlaceTarget.obj 1) :=
  ⟨by decide, by decide, by decide, by decide⟩

/-- Counterexample to C3 as stated: for
`"grab that thing near the red cube"` the raw text contains the
canonical name `"red"` (object 1), yet a pick phrase (`"that"`) is
extracted, so the pick role is resolved by embeddings first — under a
score oracle favouring `"blue"` the pick target is object 3, not the
literally mentioned object 1. -/
theorem claim_C3_counterexample :
    containsSub (pyLower "grab that thing near the red cube".toList)
      "red".toList = true ∧
    (CLIPMatcher.pick_and_place_from_text simBlueCand
        "grab that thing near the red cube".toList objs3).pick = some 3 ∧
    (CLIPMatcher.pick_and_place_from_text simBlueCand
        "grab that thing near the red cube".toList objs3).pick ≠ some 1 :=
  ⟨by decide, by decide, by decide⟩

/-- C3 amended: the literal-substring override governs only the fallback.
Whenever *no pick phrase is extracted* and the (lowercased) command text
contains a known canonical name, the pick role resolves deterministically
— before any embedding-based fallback and independently of all embedding
scores — to the first object in dict order whose name occurs in the
text. -/
theorem claim_C3 (sim : List Char → List Char → ℚ) (text : List Char)
    (objects : List (ℕ × List Char)) (om : ℕ × List Char)
    (hph : CLIPMatcher.extractSimPick (pyLower text) = none)
    (hlit : objects.find? (fun o => containsSub (pyLower text) o.2) = some om) :
    (CLIPMatcher.pick_and_place_from_text sim text objects).pick = some om.1 := by
  simp only [CLIPMatcher.pick_and_place_from_text]
  cases hpr : CLIPMatcher.extractSimPlace (pyLower text)
      (CLIPMatcher.hasGroundKw (pyLower text)) with
  | mk placeP pog =>
    simp only [hph, hlit]

/-- Witness for C3 (amended): `"put it on the red cube"` extracts no pick
phrase and literally mentions `"red"`, so pick resolves to object 1. -/
theorem claim_C3_witness :
    CLIPMatcher.extractSimPick (pyLower "put it on the red cube".toList) = none ∧
    objs3.find? (fun o => containsSub (pyLower "put it on the red cube".toList) o.2)
      = some (1, "red".toList) ∧
    (CLIPMatcher.pick_and_place_from_text simZero
        "put it on the red cube".toList objs3).pick = some 1 :=
  ⟨by decide, by decide,
    claim_C3 simZero _ objs3 (1, "red".toList) (by decide) (by decide)⟩

/-! ## SemanticMatcher.decide (p.py lines 104-219)

The sentence-transformer encoder is an oracle `sim query candidate : ℚ`
(cosine similarity); `objects` is the insertion-ordered dict
`uid -> ObjectInfo`, modelled as an assoc list of `(uid, name)`. -/

/-- Python truthiness of an optional string (`None` and `""` are falsy). -/
def optTruthy : Option (List Char) → Bool
  | none => false
  | some s => !s.isEmpty

/-- Candidate descriptors per object (p.py lines 135-145):
`[name+" cube", name+" block", name+" object", name+" colored cube"]`
as `(uid, text)` pairs in dict order. -/
def decideCandidates : List (ℕ × List Char) → List (ℕ × List Char)
  | [] => []
  | (u, name) :: rest =>
    (u, name ++ " cube".toList) :: (u, name ++ " block".toList) ::
    (u, name ++ " object".toList) :: (u, name ++ " colored cube".toList) ::
    decideCandidates rest

/-- The fallback of p.py lines 192-203 (textually identical in p_clip.py
lines 228-247): `sorted` is the descending per-object full-command
ranking; an unresolved pick takes the top entry, an unresolved place the
second entry when at least two exist. -/
def fallbackStep (sorted : List (ℕ × ℚ)) (pick0 place0 : Option ℕ) :
    Option ℕ × Option ℕ :=
  if pick0.isNone || place0.isNone then
    (match pick0, sorted with
     | none, s0 :: _ => some s0.1
     | p, _ => p,
     match place0, sorted with
     | none, _ :: s1 :: _ => some s1.1
     | p, _ => p)
  else (pick0, place0)

namespace SemanticMatcher

/-- `MatcherDecision` (p.py lines 47-51), without the debug dict. -/
structure MatcherDecision where
  pick : Option ℕ
  place : Option ℕ
deriving DecidableEq

/-- `if pick_phrase:` (truthiness gate on the extracted pick phrase,
p.py lines 150-152). -/
def pickPhraseUsed : Option (List Char) → Option (List Char)
  | none => none
  | some pp => if pp.isEmpty then none else some pp

/-- `if place_phrase and place_phrase != pick_phrase:` (p.py line 153). -/
def placePhraseUsed (pickP : Option (List Char)) :
    Option (List Char) → Option (List Char)
  | none => none
  | some pl =>
    if pl.isEmpty then none
    else if some pl = pickP then none else some pl

/-- `best_uid_for(embedding)` (p.py lines 177-180): `torch.argmax` over
the per-candidate scores, first index on ties. -/
def bestForO (sim : List Char → List Char → ℚ)
    (cands : List (ℕ × List Char)) (q : List Char) : Option ℕ :=
  (argmaxFirst (fun c => sim q c.2) cands).map Prod.fst

/-- The collision resolution of p.py lines 205-216: when pick and place
agree and more than one object is visible, re-rank every candidate entry
by its full-command score and hand place to the first entry whose uid
differs from pick. -/
def collisionCore (ranked : List (ℕ × ℚ)) (nObj : ℕ) (a b : ℕ) :
    MatcherDecision :=
  if a = b ∧ 1 < nObj then
    match ranked.find? (fun p => p.1 != a) with
    | some q => ⟨some a, some q.1⟩
    | none => ⟨some a, some b⟩
  else ⟨some a, some b⟩

/-- Dispatch of the collision resolution: it runs only when both roles
resolved (p.py line 205). -/
def collisionStep (ranked : List (ℕ × ℚ)) (nObj : ℕ) :
    Option ℕ × Option ℕ → MatcherDecision
  | (some a, some b) => collisionCore ranked nObj a b
  | (p1, p2) => ⟨p1, p2⟩

/-- `decide` after the two early returns, on the lowercased stripped
command text. -/
def decideCore (sim : List Char → List Char → ℚ) (txt : List Char)
    (objects : List (ℕ × List Char)) : MatcherDecision :=
  let pickP := extractPhrase pickReP txt
  let placeP := extractPhrase placeReP txt
  let cands := decideCandidates objects
  if cands.isEmpty then ⟨none, none⟩
  else
    let pick0 := (pickPhraseUsed pickP).bind (bestForO sim cands)
    let place0 := (placePhraseUsed pickP placeP).bind (bestForO sim cands)
    let pp := fallbackStep
      (sortDesc (buildScores (fun c => sim txt c.2) cands [])) pick0 place0
    collisionStep (sortDesc (cands.map (fun c => (c.1, sim txt c.2))))
      objects.length pp

/-- `SemanticMatcher.decide(command, objects, img, seg)` (p.py lines
109-219; the image arguments are never read). -/
def decide (sim : List Char → List Char → ℚ) (command : List Char)
    (objects : List (ℕ × List Char)) : MatcherDecision :=
  if objects.isEmpty then ⟨none, none⟩
  else
    if (pyStrip command).isEmpty then ⟨none, none⟩
    else decideCore sim (pyLower (pyStrip command)) objects

end SemanticMatcher

/-! ## CLIPSemanticMatcher.pick_and_place_from_text (p_clip.py lines 119-272)

CLIP's image-text similarity is an oracle `simI text uid : ℚ`; `crops` is
the (ordered) list of uids for which a segmentation crop exists. -/

namespace CLIPSemanticMatcher

/-- The final same-object resolution of p_clip.py lines 250-261: when
both roles resolved to the same uid, re-rank by full-text score and hand
place to the first uid different from pick (note: no guard on the number
of visible objects here). -/
def pclipCollision (ranked : List (ℕ × ℚ)) :
    Option ℕ × Option ℕ → Option ℕ × Option ℕ
  | (some a, some b) =>
    if a = b then
      match ranked.find? (fun p => p.1 != a) with
      | some q => (some a, some q.1)
      | none => (some a, some b)
    else (some a, some b)
  | (p1, p2) => (p1, p2)

/-- `pick_and_place_from_text(text, objects_meta, img, seg)` (p_clip.py
lines 167-272), returning `(pick_uid, place_uid)`. -/
def pick_and_place_from_text (simI : List Char → ℕ → ℚ) (text : List Char)
    (objects_meta : List (ℕ × List Char)) (crops : List ℕ) :
    Option ℕ × Option ℕ :=
  let _ := objects_meta
  let txt := pyStrip (pyLower text)
  let pickP := extractPhrase pickReP txt
  let placeP := extractPhrase placeRePC txt
  if crops.isEmpty then (none, none)
  else
    let bestPh : List Char → Option ℕ := fun s =>
      if (pyStrip s).isEmpty then none
      else
        (argmaxFirst (fun p => p.2) (crops.map (fun u => (u, simI s u)))).map
          Prod.fst
    let pick0 : Option ℕ :=
      match pickP with
      | some pp => if pp.isEmpty then none else bestPh pp
      | none => none
    let place0 : Option ℕ :=
      match placeP with
      | some pl => if pl.isEmpty then none else bestPh pl
      | none => none
    pclipCollision (sortDesc (crops.map (fun u => (u, simI txt u))))
      (fallbackStep (sortDesc (crops.map (fun u => (u, simI txt u))))
        pick0 place0)

end CLIPSemanticMatcher

lemma isEmpty_false_of_ne_nil {β : Type} {l : List β} (h : l ≠ []) :
    l.isEmpty = false := by
  cases l with
  | nil => exact absurd rfl h
  | cons a t => rfl

lemma sortDesc_ne_nil {l : List (ℕ × ℚ)} (h : l ≠ []) : sortDesc l ≠ [] := by
  intro hs
  apply h
  have hl := sortDesc_length l
  rw [hs] at hl
  exact List.length_eq_zero.mp hl.symm

lemma decideCandidates_ne_nil {objects : List (ℕ × List Char)}
    (h : objects ≠ []) : decideCandidates objects ≠ [] := by
  cases objects with
  | nil => exact absurd rfl h
  | cons o rest =>
    obtain ⟨u, name⟩ := o
    simp [decideCandidates]

lemma mem_decideCandidates_cube {u : ℕ} {name : List Char}
    {objects : List (ℕ × List Char)} (h : (u, name) ∈ objects) :
    (u, name ++ " cube".toList) ∈ decideCandidates objects := by
  induction objects with
  | nil => simp at h
  | cons o rest ih =>
    obtain ⟨v, nm⟩ := o
    rcases List.mem_cons.mp h with h' | h'
    · rw [Prod.mk.injEq] at h'
      obtain ⟨h1, h2⟩ := h'
      subst h1
      subst h2
      simp [decideCandidates]
    · simp only [decideCandidates, List.mem_cons]
      exact Or.inr (Or.inr (Or.inr (Or.inr (ih h'))))

lemma decideCandidates_single_keys (u : ℕ) (name : List Char) :
    ∀ x ∈ (decideCandidates [(u, name)]).map Prod.fst, x = u := by
  simp [decideCandidates]

lemma fallbackStep_fst_ne_none {sorted : List (ℕ × ℚ)}
    {pick0 place0 : Option ℕ} (h : sorted ≠ []) :
    (fallbackStep sorted pick0 place0).1 ≠ none := by
  unfold fallbackStep
  cases pick0 with
  | some p =>
    split
    · cases sorted <;> simp
    · simp
  | none =>
    cases sorted with
    | nil => exact absurd rfl h
    | cons s t => simp

lemma fallbackStep_snd_of_short {sorted : List (ℕ × ℚ)} {pick0 : Option ℕ}
    (h : sorted.length ≤ 1) : (fallbackStep sorted pick0 none).2 = none := by
  unfold fallbackStep
  split
  · cases sorted with
    | nil => simp
    | cons s t =>
      cases t with
      | nil => simp
      | cons s1 t1 => simp at h
  · simp

namespace SemanticMatcher

lemma collisionStep_pick (ranked : List (ℕ × ℚ)) (nObj : ℕ)
    (pp : Option ℕ × Option ℕ) :
    (collisionStep ranked nObj pp).pick = pp.1 := by
  obtain ⟨p1, p2⟩ := pp
  cases p1 with
  | none => cases p2 <;> rfl
  | some a =>
    cases p2 with
    | none => rfl
    | some b =>
      show (collisionCore ranked nObj a b).pick = some a
      unfold collisionCore
      split
      · cases hf : ranked.find? (fun p => p.1 != a) with
        | some q => rfl
        | none => rfl
      · rfl

lemma collisionStep_place_none (ranked : List (ℕ × ℚ)) (nObj : ℕ)
    (pp : Option ℕ × Option ℕ) (h : pp.2 = none) :
    (collisionStep ranked nObj pp).place = none := by
  obtain ⟨p1, p2⟩ := pp
  simp only at h
  subst h
  cases p1 <;> rfl

lemma collisionStep_no_collision {ranked : List (ℕ × ℚ)} {nObj : ℕ}
    {pp : Option ℕ × Option ℕ} {u : ℕ}
    (hex : ∀ a : ℕ, ∃ q ∈ ranked, q.1 ≠ a) (hn : 1 < nObj)
    (hp : (collisionStep ranked nObj pp).place = some u) :
    (collisionStep ranked nObj pp).pick ≠ some u := by
  obtain ⟨p1, p2⟩ := pp
  cases p1 with
  | none => cases p2 <;> exact fun h => Option.noConfusion h
  | some a =>
    cases p2 with
    | none => exact absurd hp (fun h => Option.noConfusion h)
    | some b =>
      rw [show collisionStep ranked nObj (some a, some b) =
        collisionCore ranked nObj a b from rfl] at hp ⊢
      unfold collisionCore at hp ⊢
      by_cases hab : a = b ∧ 1 < nObj
      · rw [if_pos hab] at hp ⊢
        cases hf : ranked.find? (fun p => p.1 != a) with
        | some q =>
          rw [hf] at hp
          have hq : q.1 ≠ a := by
            have := List.find?_some hf
            simpa using this
          simp at hp ⊢
          intro h
          apply hq
          have hp' : q.1 = u := by simpa using hp
          rw [hp', h]
        | none =>
          exfalso
          obtain ⟨q, hqm, hqn⟩ := hex a
          have hqa := List.find?_eq_none.mp hf q hqm
          simp at hqa
          exact hqn hqa
      · rw [if_neg hab] at hp ⊢
        have hne : a ≠ b := fun h => hab ⟨h, hn⟩
        simp at hp ⊢
        intro h
        exact hne (h.trans hp.symm)

end SemanticMatcher

namespace SemanticMatcher

lemma decideCore_pick_ne_none (sim : List Char → List Char → ℚ)
    (txt : List Char) (objects : List (ℕ × List Char)) (h : objects ≠ []) :
    (decideCore sim txt objects).pick ≠ none := by
  have hc : (decideCandidates objects).isEmpty = false :=
    isEmpty_false_of_ne_nil (decideCandidates_ne_nil h)
  simp only [decideCore, hc, Bool.false_eq_true, if_false]
  rw [collisionStep_pick]
  exact fallbackStep_fst_ne_none
    (sortDesc_ne_nil (buildScores_ne_nil _ (decideCandidates_ne_nil h)))

lemma decideCore_no_collision (sim : List Char → List Char → ℚ)
    (txt : List Char) (objects : List (ℕ × List Char))
    (hnd : (objects.map Prod.fst).Nodup) (hlen : 2 ≤ objects.length) (u : ℕ)
    (hp : (decideCore sim txt objects).place = some u) :
    (decideCore sim txt objects).pick ≠ some u := by
  have hne : objects ≠ [] := by
    intro h
    rw [h] at hlen
    simp at hlen
  have hc : (decideCandidates objects).isEmpty = false :=
    isEmpty_false_of_ne_nil (decideCandidates_ne_nil hne)
  simp only [decideCore, hc, Bool.false_eq_true, if_false] at hp ⊢
  apply collisionStep_no_collision ?hex (by omega) hp
  intro a
  obtain ⟨o1, o2, rest, ho⟩ : ∃ o1 o2 rest, objects = o1 :: o2 :: rest := by
    cases objects with
    | nil => simp at hlen
    | cons o1 t =>
      cases t with
      | nil => simp at hlen
      | cons o2 rest => exact ⟨o1, o2, rest, rfl⟩
  have h12 : o1.1 ≠ o2.1 := by
    rw [ho] at hnd
    simp only [List.map_cons, List.nodup_cons, List.mem_cons] at hnd
    exact fun h => hnd.1 (Or.inl h)
  have hm1 : (o1.1, o1.2 ++ " cube".toList) ∈ decideCandidates objects := by
    apply mem_decideCandidates_cube
    rw [ho]
    exact List.mem_cons_self _ _
  have hm2 : (o2.1, o2.2 ++ " cube".toList) ∈ decideCandidates objects := by
    apply mem_decideCandidates_cube
    rw [ho]
    exact List.mem_cons_of_mem _ (List.mem_cons_self _ _)
  by_cases ha : o1.1 = a
  · refine ⟨(o2.1, sim txt (o2.2 ++ " cube".toList)), ?_, ?_⟩
    · rw [mem_sortDesc]
      exact List.mem_map_of_mem _ hm2
    · intro h
      exact h12 (by rw [ha, h])
  · exact ⟨(o1.1, sim txt (o1.2 ++ " cube".toList)),
      by rw [mem_sortDesc]; exact List.mem_map_of_mem _ hm1, ha⟩

lemma decideCore_place_single (sim : List Char → List Char → ℚ)
    (txt : List Char) (u : ℕ) (name : List Char)
    (hpl : placePhraseUsed (extractPhrase pickReP txt)
        (extractPhrase placeReP txt) = none) :
    (decideCore sim txt [(u, name)]).place = none := by
  have hc : (decideCandidates [(u, name)]).isEmpty = false := by
    simp [decideCandidates]
  simp only [decideCore, hc, Bool.false_eq_true, if_false, hpl, Option.none_bind]
  apply collisionStep_place_none
  apply fallbackStep_snd_of_short
  rw [sortDesc_length]
  apply length_le_one_of_keys_eq (buildScores_keys_nodup _ _ [] (by simp))
  intro x hx
  rcases buildScores_keys_sub _ _ [] x hx with h' | h'
  · simp at h'
  · exact decideCandidates_single_keys u name x h'

end SemanticMatcher

/-- C1 amended: for `SemanticMatcher.decide` (p.py), with at least two
distinct visible objects the returned decision never resolves pick and
place to the same object id, under every score oracle and every command.
(The claim as frozen also covered `CLIPMatcher.pick_and_place_from_text`
of Simullation.py, where the invariant fails — see the counterexample.) -/
theorem claim_C1 (sim : List Char → List Char → ℚ) (command : List Char)
    (objects : List (ℕ × List Char))
    (hnd : (objects.map Prod.fst).Nodup) (hlen : 2 ≤ objects.length)
    (u : ℕ) (hp : (SemanticMatcher.decide sim command objects).place = some u) :
    (SemanticMatcher.decide sim command objects).pick ≠ some u := by
  simp only [SemanticMatcher.decide] at hp ⊢
  by_cases h1 : objects.isEmpty = true
  · rw [if_pos h1] at hp
    simp at hp
  · rw [if_neg h1] at hp ⊢
    by_cases h2 : (pyStrip command).isEmpty = true
    · rw [if_pos h2] at hp
      simp at hp
    · rw [if_neg h2] at hp ⊢
      exact SemanticMatcher.decideCore_no_collision sim _ objects hnd hlen u hp

/-- A score oracle under which the pick phrase of
`"pick up the red cube and place it on the blue cube"` resolves to the
red cube and the place phrase to the blue cube. -/
def simPhrases : List Char → List Char → ℚ := fun q c =>
  if q = "up the red cube".toList ∧ c = "red cube".toList then 1
  else if q = "blue cube".toList ∧ c = "blue cube".toList then 1
  else 0

/-- Witness for C1 (amended): a full run of `decide` on the canonical
pick-and-place command over the three-cube scene. -/
theorem claim_C1_witness :
    ((objs3.map Prod.fst).Nodup ∧ 2 ≤ objs3.length ∧
      (SemanticMatcher.decide simPhrases
        "pick up the red cube and place it on the blue cube".toList
        objs3).place = some 3) ∧
    (SemanticMatcher.decide simPhrases
      "pick up the red cube and place it on the blue cube".toList
      objs3).pick ≠ some 3 :=
  ⟨⟨by decide, by decide, by decide⟩,
    claim_C1 simPhrases
      "pick up the red cube and place it on the blue cube".toList objs3
      (by decide) (by decide) 3 (by decide)⟩

/-- Counterexample to C4 as stated: the empty command with three visible
objects yields `pick = None` even though more than zero objects are
visible, refuting "the only `None` pick output occurs when zero objects
are visible". -/
theorem claim_C4_counterexample :
    objs3 ≠ [] ∧
    (SemanticMatcher.decide simZero "".toList objs3).pick = none :=
  ⟨by decide, by decide⟩

/-- C4 amended: `decide` is a total function (never raises), and
`pick = None` exactly when zero objects are visible **or** the stripped
command is empty; in particular the empty-string command yields a
well-formed decision with `pick = None`. -/
theorem claim_C4 (sim : List Char → List Char → ℚ) (command : List Char)
    (objects : List (ℕ × List Char)) :
    (SemanticMatcher.decide sim command objects).pick = none ↔
      objects = [] ∨ pyStrip command = [] := by
  constructor
  · intro h
    by_contra hn
    push_neg at hn
    obtain ⟨ho, hcmd⟩ := hn
    simp only [SemanticMatcher.decide] at h
    rw [if_neg (by rw [isEmpty_false_of_ne_nil ho]; simp)] at h
    rw [if_neg (by rw [isEmpty_false_of_ne_nil hcmd]; simp)] at h
    exact SemanticMatcher.decideCore_pick_ne_none sim _ objects ho h
  · intro h
    rcases h with h | h
    · subst h
      rfl
    · by_cases ho : objects.isEmpty = true <;>
        simp [SemanticMatcher.decide, ho, h]

namespace CLIPSemanticMatcher

lemma pclipCollision_snd_none (ranked : List (ℕ × ℚ))
    (pp : Option ℕ × Option ℕ) (h : pp.2 = none) :
    (pclipCollision ranked pp).2 = none := by
  obtain ⟨p1, p2⟩ := pp
  simp only at h
  subst h
  cases p1 <;> rfl

lemma pclip_place_single (simI : List Char → ℕ → ℚ) (text : List Char)
    (u : ℕ) (name : List Char) (crops : List ℕ)
    (hc : crops = [] ∨ crops = [u])
    (hpl : optTruthy (extractPhrase placeRePC (pyStrip (pyLower text))) = false) :
    (pick_and_place_from_text simI text [(u, name)] crops).2 = none := by
  rcases hc with hc | hc <;> subst hc
  · rfl
  · simp only [pick_and_place_from_text]
    cases hx : extractPhrase placeRePC (pyStrip (pyLower text)) with
    | none =>
      apply pclipCollision_snd_none
      apply fallbackStep_snd_of_short
      rw [sortDesc_length]
      simp
    | some pl =>
      rw [hx] at hpl
      simp only [optTruthy, Bool.not_eq_false'] at hpl
      simp only [hpl, if_true]
      apply pclipCollision_snd_none
      apply fallbackStep_snd_of_short
      rw [sortDesc_length]
      simp

end CLIPSemanticMatcher

/-- C10: when exactly one object is visible and the place target was not
resolved from an explicit place phrase, the whole-command fallback leaves
`place = None` — it requires at least two distinct scored objects before
assigning a place.  Part one: `SemanticMatcher.decide` (p.py); part two:
`CLIPSemanticMatcher.pick_and_place_from_text` (p_clip.py, with the one
visible object having a crop, or no crop at all). -/
theorem claim_C10 :
    (∀ (sim : List Char → List Char → ℚ) (command : List Char) (u : ℕ)
        (name : List Char),
      SemanticMatcher.placePhraseUsed
          (extractPhrase pickReP (pyLower (pyStrip command)))
          (extractPhrase placeReP (pyLower (pyStrip command))) = none →
      (SemanticMatcher.decide sim command [(u, name)]).place = none) ∧
    (∀ (simI : List Char → ℕ → ℚ) (text : List Char) (u : ℕ)
        (name : List Char) (crops : List ℕ),
      (crops = [] ∨ crops = [u]) →
      optTruthy (extractPhrase placeRePC (pyStrip (pyLower text))) = false →
      (CLIPSemanticMatcher.pick_and_place_from_text simI text
        [(u, name)] crops).2 = none) := by
  constructor
  · intro sim command u name hpl
    simp only [SemanticMatcher.decide]
    by_cases h2 : (pyStrip command).isEmpty = true
    · simp [h2]
    · simp only [List.isEmpty_cons, if_false, h2]
      exact SemanticMatcher.decideCore_place_single sim _ u name hpl
  · intro simI text u name crops hc hpl
    exact CLIPSemanticMatcher.pclip_place_single simI text u name crops hc hpl

/-- Witness for C10: the command `"grab the red"` extracts a pick phrase
but no place phrase; with the single visible object `(7, red)` both
matchers leave the place target unresolved. -/
theorem claim_C10_witness :
    (SemanticMatcher.placePhraseUsed
        (extractPhrase pickReP (pyLower (pyStrip "grab the red".toList)))
        (extractPhrase placeReP (pyLower (pyStrip "grab the red".toList)))
      = none ∧
      optTruthy (extractPhrase placeRePC
        (pyStrip (pyLower "grab the red".toList))) = false) ∧
    (SemanticMatcher.decide simZero "grab the red".toList
      [(7, "red".toList)]).place = none ∧
    (CLIPSemanticMatcher.pick_and_place_from_text (fun _ _ => 0)
      "grab the red".toList [(7, "red".toList)] [7]).2 = none :=
  ⟨⟨by decide, by decide⟩,
    claim_C10.1 simZero "grab the red".toList 7 "red".toList (by decide),
    claim_C10.2 (fun _ _ => 0) "grab the red".toList 7 "red".toList [7]
      (Or.inr rfl) (by decide)⟩
